import Mathlib

/-!
Verification of the interaction core of the `conrod` immediate-mode GUI toolkit
(`src/envelope_editor.rs`, `src/xy_pad.rs`, `src/text_box.rs`).

Embedding conventions:
* `f64`/`f32` arithmetic is embedded as exact arithmetic over `ℚ`.  The only
  transcendental operation the widgets use is `Float::powf`: calls with the
  literal exponent `2.0` (squared distances) are embedded as exact squaring,
  and calls whose exponent involves the user-supplied `skew` are kept abstract
  as a function parameter `pw : ℚ → ℚ → ℚ`.
* `::std::f64::MAX` is the exact rational value of `f64::MAX`.
* Rust panics (out-of-bounds `Vec`/`str` indexing) are embedded as `Option`
  with `none` for the panic.
* `Vec::sort_by` is a stable sort; a stable sort's output is uniquely
  determined by the comparator, so the structurally recursive
  `List.insertionSort` (also stable) is an exact model of it.
* caller-supplied callbacks are modelled by recording their invocations
  (argument lists) instead of running arbitrary effects.
-/

namespace Conrod

/-- Button level state sampled once per frame (`mouse::ButtonState`). -/
inductive ButtonState
  | up
  | down
deriving DecidableEq

/-- Per-frame mouse snapshot (`mouse::Mouse`): pointer position plus the level
state of the left and right buttons. -/
structure Mouse where
  pos : ℚ × ℚ
  left : ButtonState
  right : ButtonState
deriving DecidableEq

/-- Modelled from the spec: `utils::map_range` (the source file `utils.rs` is
not under `src/`): linear interpolation from `[fromLo, fromHi]` to
`[toLo, toHi]`, direction-agnostic (`fromLo` may exceed `fromHi` to flip an
axis). -/
def map_range (value fromLo fromHi toLo toHi : ℚ) : ℚ :=
  toLo + (value - fromLo) * (toHi - toLo) / (fromHi - fromLo)

/-- Modelled from the spec: `utils::percentage` (source not under `src/`):
the position of `value` in `[lo, hi]` as a number in `[0, 1]`. -/
def percentage (value lo hi : ℚ) : ℚ :=
  (value - lo) / (hi - lo)

/-- Modelled from the spec: `utils::clamp` (source not under `src/`). -/
def clamp (value lo hi : ℚ) : ℚ :=
  if value < lo then lo else if value > hi then hi else value

/-- Modelled from the spec: `rectangle::is_over` (source not under `src/`):
axis-aligned containment, inclusive of edges. -/
def is_over (pos : ℚ × ℚ) (mousePos : ℚ × ℚ) (dim : ℚ × ℚ) : Bool :=
  decide (pos.1 ≤ mousePos.1 ∧ mousePos.1 ≤ pos.1 + dim.1 ∧
          pos.2 ≤ mousePos.2 ∧ mousePos.2 ≤ pos.2 + dim.2)

/-- The exact rational value of `::std::f64::MAX`, the initial
`closest_distance` of the envelope editor's nearest-point scan. -/
def f64Max : ℚ := (2 ^ 53 - 1) * 2 ^ 971

namespace EnvelopeEditor

/-- Source `envelope_editor::Element`: the sub-region of the widget an interaction
state refers to.  An `envPoint`/`curvePoint` carries the index into the
externally-owned point collection and the last known pixel position. -/
inductive Element
  | rect
  | pad
  | envPoint (idx : Nat) (pos : ℚ × ℚ)
  | curvePoint (idx : Nat) (pos : ℚ × ℚ)
deriving DecidableEq

/-- Source `envelope_editor::MouseButton`. -/
inductive MouseButton
  | left
  | right
deriving DecidableEq

/-- Source `envelope_editor::State`: the persisted per-frame interaction state. -/
inductive State
  | normal
  | highlighted (elem : Element)
  | clicked (elem : Element) (button : MouseButton)
deriving DecidableEq

/-- A concrete instance of the `EnvelopePoint` capability (`get_x`/`get_y`/
`set_x`/`set_y`/`get_curve`/`new`): an x value, a y value and a curve value. -/
structure EnvelopePoint where
  x : ℚ
  y : ℚ
  curve : ℚ
deriving DecidableEq

/-- Constructor `EnvelopePoint::new(x, y)`; the curve component takes the trait's default
curve value `1.0`. -/
def EnvelopePoint.new (x y : ℚ) : EnvelopePoint := ⟨x, y, 1⟩

/-- The widget configuration the per-frame call consumes, fully resolved by
the builder layer: skew, value ranges, geometry, point radius, and whether a
callback is registered.  `pw` is the abstract embedding of `Float::powf`
used for the `skew`-derived exponents. -/
structure Cfg where
  pw : ℚ → ℚ → ℚ
  skew : ℚ
  minX : ℚ
  maxX : ℚ
  minY : ℚ
  maxY : ℚ
  pos : ℚ × ℚ
  dim : ℚ × ℚ
  frameW : ℚ
  ptRadius : ℚ
  hasCallback : Bool

/-- The pad origin `pad_pos = vec2_add(self.pos, [frame_w; 2])`. -/
def padPos (c : Cfg) : ℚ × ℚ := (c.pos.1 + c.frameW, c.pos.2 + c.frameW)

/-- The pad size `pad_dim = vec2_sub(self.dim, [frame_w * 2.0; 2])`. -/
def padDim (c : Cfg) : ℚ × ℚ := (c.dim.1 - c.frameW * 2, c.dim.2 - c.frameW * 2)

/-- The `perc_env` vector: every point as
`(percentage(x), percentage(y).powf(1.0/skew), curve)`. -/
def percEnv (c : Cfg) (env : List EnvelopePoint) : List (ℚ × ℚ × ℚ) :=
  env.map fun pt =>
    (percentage pt.x c.minX c.maxX,
     c.pw (percentage pt.y c.minY c.maxY) (1 / c.skew),
     pt.curve)

/-- The pixel position of a percentage-space point on the pad (the `p_pos`
computation inside `is_over_and_closest`); note the y axis is flipped. -/
def pointPixel (c : Cfg) (xy : ℚ × ℚ) : ℚ × ℚ :=
  (map_range xy.1 0 1 (padPos c).1 ((padPos c).1 + (padDim c).1),
   map_range xy.2 0 1 ((padPos c).2 + (padDim c).2) (padPos c).2)

/-- The loop body of `is_over_and_closest`: scan the percentage-space points,
returning an immediate hit (`some`) when a point is within the capture
radius, otherwise tracking the closest point seen so far.
`powf(2.0)` is embedded as exact squaring. -/
def scanPoints (c : Cfg) (mousePos : ℚ × ℚ) :
    List (ℚ × ℚ × ℚ) → Nat → ℚ → Element → Option Element × (ℚ × Element)
  | [], _, closestDistance, closestEnvPoint => (none, (closestDistance, closestEnvPoint))
  | p :: rest, i, closestDistance, closestEnvPoint =>
    let pPos := pointPixel c (p.1, p.2.1)
    let distance := (mousePos.1 - pPos.1) * (mousePos.1 - pPos.1)
                  + (mousePos.2 - pPos.2) * (mousePos.2 - pPos.2)
    if distance ≤ c.ptRadius * c.ptRadius then
      (some (.envPoint i pPos), (closestDistance, closestEnvPoint))
    else if distance < closestDistance then
      scanPoints c mousePos rest (i + 1) distance (.envPoint i pPos)
    else
      scanPoints c mousePos rest (i + 1) closestDistance closestEnvPoint

/-- Source `envelope_editor::is_over_and_closest`: which element the cursor is over,
and the closest envelope point to the cursor. -/
def is_over_and_closest (c : Cfg) (mousePos : ℚ × ℚ) (pe : List (ℚ × ℚ × ℚ)) :
    Option Element × Option Element :=
  if is_over c.pos mousePos c.dim then
    if is_over (padPos c) mousePos (padDim c) then
      match scanPoints c mousePos pe 0 f64Max .pad with
      | (some hit, _) => (some hit, some hit)
      | (none, (_, closestEnvPoint)) => (some .pad, some closestEnvPoint)
    else (some .rect, some .rect)
  else (none, none)

/-- Source `envelope_editor::get_new_state`, with the source's arm order. -/
def get_new_state (isOverElem : Option Element) (prev : State) (mouse : Mouse) :
    State :=
  match isOverElem, prev, mouse.left, mouse.right with
  | some _, .normal, .down, .up => .normal
  | some elem, _, .up, .up => .highlighted elem
  | some elem, .highlighted _, .down, .up => .clicked elem .left
  | some _, .clicked pElem mButton, .down, .up
  | some _, .clicked pElem mButton, .up, .down =>
    match pElem with
    | .envPoint idx _ => .clicked (.envPoint idx mouse.pos) mButton
    | .curvePoint idx _ => .clicked (.curvePoint idx mouse.pos) mButton
    | _ => .clicked pElem mButton
  | none, .clicked pElem mButton, .down, .up =>
    (match pElem, mButton with
    | .envPoint idx _, _ => .clicked (.envPoint idx mouse.pos) .left
    | .curvePoint idx _, _ => .clicked (.curvePoint idx mouse.pos) .left
    | _, _ => .clicked pElem .left)
  | some _, .highlighted pElem, .up, .down =>
    match pElem with
    | .envPoint idx _ => .clicked (.envPoint idx mouse.pos) .right
    | .curvePoint idx _ => .clicked (.curvePoint idx mouse.pos) .right
    | _ => .clicked pElem .right
  | _, _, _, _ => .normal

/-- The `get_x_bounds` closure: left and right x bounds (in percentage space)
for the point at `idx`, falling back to `0.0` / `1.0` at the ends. -/
def get_x_bounds (pe : List (ℚ × ℚ × ℚ)) (idx : Nat) : ℚ × ℚ :=
  let rightBound :=
    if 0 < pe.length ∧ idx < pe.length - 1 then (pe.getD (idx + 1) (0, 0, 0)).1 else 1
  let leftBound :=
    if 0 < pe.length ∧ 0 < idx then (pe.getD (idx - 1) (0, 0, 0)).1 else 0
  (leftBound, rightBound)

/-- The `get_new_value` closure: value for the dragged point at `idx`, from
the cursor pixel clamped to the pad and with its x percentage clamped to the
neighbouring points' x bounds. -/
def get_new_value (c : Cfg) (pe : List (ℚ × ℚ × ℚ)) (idx : Nat)
    (mouseX mouseY : ℚ) : ℚ × ℚ :=
  let mouseXOnPad := mouseX - (padPos c).1
  let mouseYOnPad := mouseY - (padPos c).2
  let mouseXClamped := clamp mouseXOnPad 0 (padDim c).1
  let mouseYClamped := clamp mouseYOnPad 0 (padDim c).2
  let newXPerc := percentage mouseXClamped 0 (padDim c).1
  let newYPerc := c.pw (percentage mouseYClamped (padDim c).2 0) c.skew
  let bounds := get_x_bounds pe idx
  (map_range
    (if newXPerc > bounds.2 then bounds.2
     else if newXPerc < bounds.1 then bounds.1
     else newXPerc) 0 1 c.minX c.maxX,
   map_range newYPerc 0 1 c.minY c.maxY)

/-- The value computed inline by the click-to-insert branch (no neighbour
bounds are applied there). -/
def insert_value (c : Cfg) (mouse : Mouse) : ℚ × ℚ :=
  let mouseXOnPad := mouse.pos.1 - (padPos c).1
  let mouseYOnPad := mouse.pos.2 - (padPos c).2
  let mouseXClamped := clamp mouseXOnPad 0 (padDim c).1
  let mouseYClamped := clamp mouseYOnPad 0 (padDim c).2
  let newXPerc := percentage mouseXClamped 0 (padDim c).1
  let newYPerc := c.pw (percentage mouseYClamped (padDim c).2 0) c.skew
  (map_range newXPerc 0 1 c.minX c.maxX, map_range newYPerc 0 1 c.minY c.maxY)

/-- The `is_clicked_env_point` match of `draw`, including the dereferences of
the externally-owned collection that drawing the point performs
(`envelope[idx].get_x()` inside `draw_env_pt`): `none` models the
out-of-bounds panic, `some (some idx)` a clicked indexed point, `some none`
no clicked indexed point. -/
def is_clicked_env_point (env : List EnvelopePoint) (state newState : State)
    (isClosestElem : Option Element) : Option (Option Nat) :=
  match state, newState with
  | _, .clicked elem _ | _, .highlighted elem =>
    match elem with
    | .envPoint idx _ => if idx < env.length then some (some idx) else none
    | .pad =>
      match isClosestElem with
      | some (.envPoint closestIdx _) =>
        if closestIdx < env.length then some none else none
      | _ => some none
    | _ => some none
  | _, _ => some none

/-- The comparator of the insert branch's `sort_by` (ascending by x; the sort
is stable, so `insertionSort` reproduces `Vec::sort_by` exactly). -/
def sortEnv (env : List EnvelopePoint) : List EnvelopePoint :=
  env.insertionSort fun a b => a.x ≤ b.x

/-- The mutation/callback dispatch of `envelope_editor::draw` (the match on
`is_clicked_env_point` and on the `(state, new_state)` pair): returns the
updated collection and the recorded callback invocations
`(collection as passed, idx)`, or `none` when the frame panics on an
out-of-bounds index. -/
def dispatch (c : Cfg) (pe : List (ℚ × ℚ × ℚ)) (env : List EnvelopePoint)
    (state newState : State) (mouse : Mouse) (isClosestElem : Option Element) :
    Option (List EnvelopePoint × List (List EnvelopePoint × Nat)) :=
  match is_clicked_env_point env state newState isClosestElem with
  | none => none
  | some (some idx) =>
    match state, newState with
    | .clicked _ mButton, .highlighted _ | .clicked _ mButton, .normal =>
      (match mButton with
      | .left =>
        let nv := get_new_value c pe idx mouse.pos.1 mouse.pos.2
        let env2 := env.set idx { (env.getD idx ⟨0, 0, 0⟩) with x := nv.1, y := nv.2 }
        some (env2, if c.hasCallback then [(env2, idx)] else [])
      | .right =>
        let env2 := env.eraseIdx idx
        some (env2, if c.hasCallback then [(env2, idx)] else []))
    | .clicked _ prevMButton, .clicked _ mButton =>
      (match prevMButton, mButton with
      | .left, .left =>
        let nv := get_new_value c pe idx mouse.pos.1 mouse.pos.2
        let currentX := (env.getD idx ⟨0, 0, 0⟩).x
        let currentY := (env.getD idx ⟨0, 0, 0⟩).y
        if nv.1 ≠ currentX ∨ nv.2 ≠ currentY then
          let env2 := env.set idx { (env.getD idx ⟨0, 0, 0⟩) with x := nv.1, y := nv.2 }
          some (env2, if c.hasCallback then [(env2, idx)] else [])
        else some (env, [])
      | _, _ => some (env, []))
    | _, _ => some (env, [])
  | some none =>
    if env.length = 0 then
      match state, newState with
      | .clicked elem mButton, .highlighted _ =>
        (match elem, mButton with
        | .pad, .left =>
          let nv := get_new_value c pe 0 mouse.pos.1 mouse.pos.2
          some (env ++ [EnvelopePoint.new nv.1 nv.2], [])
        | _, _ => some (env, []))
      | _, _ => some (env, [])
    else
      match state, newState with
      | .clicked elem mButton, .highlighted _ =>
        (match elem, mButton with
        | .pad, .left =>
          let nv := insert_value c mouse
          some (sortEnv (env ++ [EnvelopePoint.new nv.1 nv.2]), [])
        | _, _ => some (env, []))
      | _, _ => some (env, [])

/-- One full frame of `envelope_editor::draw` (the interaction core: state
step plus mutation/callback dispatch; drawing calls are omitted).  `none`
models a panic. -/
def frame (c : Cfg) (env : List EnvelopePoint) (state : State) (mouse : Mouse) :
    Option (State × List EnvelopePoint × List (List EnvelopePoint × Nat)) :=
  let pe := percEnv c env
  let overAndClosest := is_over_and_closest c mouse.pos pe
  let newState := get_new_state overAndClosest.1 state mouse
  match dispatch c pe env state newState mouse overAndClosest.2 with
  | none => none
  | some (env2, calls) => some (newState, env2, calls)

end EnvelopeEditor

namespace XYPad

/-- Source `xy_pad::State`. -/
inductive State
  | normal
  | highlighted
  | clicked
deriving DecidableEq

/-- Source `xy_pad::get_new_state`, with the source's arm order. -/
def get_new_state (isOver : Bool) (prev : State) (mouse : Mouse) : State :=
  match isOver, prev, mouse.left with
  | true, .normal, .down => .normal
  | true, _, .down => .clicked
  | true, _, .up => .highlighted
  | false, .clicked, .down => .clicked
  | _, _, _ => .normal

/-- The "Determine new values" match of `xy_pad::draw`: in `Clicked` the
value comes from the cursor clamped to the pad; note both output axes are
flipped (`map_range(pixel, pad_dim, 0.0, min, max)` sends the low pixel edge
to the range maximum). -/
def new_value (minX maxX minY maxY : ℚ) (pos : ℚ × ℚ) (padPos padDim : ℚ × ℚ)
    (x y : ℚ) (mouse : Mouse) (isOverPad : Bool) (newState : State) : ℚ × ℚ :=
  match isOverPad, newState with
  | _, .normal | _, .highlighted => (x, y)
  | _, .clicked =>
    let tempX := clamp mouse.pos.1 padPos.1 (padPos.1 + padDim.1)
    let tempY := clamp mouse.pos.2 padPos.2 (padPos.2 + padDim.2)
    (map_range (tempX - pos.1) padDim.1 0 minX maxX,
     map_range (tempY - pos.2) padDim.2 0 minY maxY)

/-- The callback condition of `xy_pad::draw`: invoke when the value changed,
else exactly on the `Highlighted↔Clicked` boundary transitions.  `true` means
the registered callback is invoked once this frame. -/
def callback_fires (x y newX newY : ℚ) (state newState : State) : Bool :=
  if x ≠ newX ∨ y ≠ newY then true
  else
    match state, newState with
    | .highlighted, .clicked | .clicked, .highlighted => true
    | _, _ => false

/-- The result of one frame of `xy_pad::draw`. -/
structure FrameOut where
  state : State
  value : ℚ × ℚ
  fired : Bool
deriving DecidableEq

/-- One full frame of `xy_pad::draw` (interaction core: hit test, state step,
value computation, callback dispatch; drawing calls are omitted).  A
callback is assumed registered, so `fired` records whether it is invoked. -/
def frame (minX maxX minY maxY : ℚ) (pos dim : ℚ × ℚ) (frameW : ℚ)
    (x y : ℚ) (state : State) (mouse : Mouse) : FrameOut :=
  let padDim : ℚ × ℚ := (dim.1 - frameW * 2, dim.2 - frameW * 2)
  let padPos : ℚ × ℚ := (pos.1 + frameW, pos.2 + frameW)
  let isOverPad := is_over padPos mouse.pos padDim
  let newState := get_new_state isOverPad state mouse
  let nv := new_value minX maxX minY maxY pos padPos padDim x y mouse isOverPad newState
  ⟨newState, nv, callback_fires x y nv.1 nv.2 state newState⟩

/-- Frames iterated over a list of mouse snapshots, threading the value the
way the surrounding application does (the callback stores the new value,
which the builder supplies again next frame), and collecting the values the
callback is invoked with. -/
def run (minX maxX minY maxY : ℚ) (pos dim : ℚ × ℚ) (frameW : ℚ) :
    State → ℚ × ℚ → List Mouse → State × (ℚ × ℚ) × List (ℚ × ℚ)
  | s, v, [] => (s, v, [])
  | s, v, m :: rest =>
    let out := frame minX maxX minY maxY pos dim frameW v.1 v.2 s m
    let next := run minX maxX minY maxY pos dim frameW out.state out.value rest
    (next.1, next.2.1, (if out.fired then [out.value] else []) ++ next.2.2)

end XYPad

namespace TextBox

/-- Source `text_box::Element`. -/
inductive Element
  | nill
  | rect
  | text (idx : Nat) (cursorX : ℚ)
deriving DecidableEq

/-- Source `text_box::DrawState`. -/
inductive DrawState
  | normal
  | highlighted (elem : Element)
  | clicked (elem : Element)
deriving DecidableEq

/-- Source `text_box::Capturing`. -/
inductive Capturing
  | uncaptured
  | captured (idx : Nat) (cursorX : ℚ)
deriving DecidableEq

/-- Source `text_box::State` (the pair `State(DrawState, Capturing)`). -/
structure State where
  draw : DrawState
  capturing : Capturing
deriving DecidableEq

/-- Source `text_box::get_new_state`, with the source's arm order. -/
def get_new_state (overElem : Element) (prevBoxState : State) (mouse : Mouse) :
    State :=
  match prevBoxState with
  | ⟨prev, .uncaptured⟩ =>
    match overElem, prev, mouse.left with
    | _, .normal, .down => ⟨.normal, .uncaptured⟩
    | .nill, .normal, .up | .nill, .highlighted _, .up => ⟨.normal, .uncaptured⟩
    | _, .normal, .up | _, .highlighted _, .up => ⟨.highlighted overElem, .uncaptured⟩
    | _, .highlighted pElem, .down | _, .clicked pElem, .down => ⟨.clicked pElem, .uncaptured⟩
    | .text idx x, .clicked (.text _ _), .up => ⟨.highlighted overElem, .captured idx x⟩
    | .nill, _, _ => ⟨.normal, .uncaptured⟩
    | _, _, _ => prevBoxState
  | ⟨prev, .captured pIdx pX⟩ =>
    match overElem, prev, mouse.left with
    | .nill, .clicked .nill, .up => ⟨.normal, .uncaptured⟩
    | .text idx x, .clicked (.text _ _), .up => ⟨.highlighted overElem, .captured idx x⟩
    | _, .normal, .up | _, .highlighted _, .up | _, .clicked _, .up =>
      ⟨.highlighted overElem, .captured pIdx pX⟩
    | _, .highlighted pElem, .down | _, .clicked pElem, .down =>
      ⟨.clicked pElem, .captured pIdx pX⟩
    | _, _, _ => prevBoxState

/-- The constant `static TEXT_PADDING: f64 = 5f64`. -/
def TEXT_PADDING : ℚ := 5

/-- The control keys the captured text box reacts to
(`piston::input::keyboard::Key`); `other` stands for every other key. -/
inductive Key
  | backspace
  | leftKey
  | rightKey
  | returnKey
  | other
deriving DecidableEq

/-- The "Check for entered text" loop of `text_box::draw`, for one committed
fragment list.  Strings are lists of characters; `charW` is the font metrics
collaborator (`uic.get_character(..).width()`).  Each fragment is measured,
tested against the interior width budget (`break` on overflow rejects it and
every later fragment), then spliced at the frame-start cursor index `idx`
(`&self.text[..idx]`, which panics — `none` — when `idx` exceeds the current
text length); `new_idx` advances by the fragment length. -/
def entered_text_loop (charW : Char → ℚ) (rightEdge : ℚ) (idx : Nat) :
    List (List Char) → List Char → Nat → ℚ → Option (List Char × Nat × ℚ)
  | [], text, newIdx, newCursorX => some (text, newIdx, newCursorX)
  | t :: rest, text, newIdx, newCursorX =>
    let enteredTextWidth := (t.map charW).sum
    if newCursorX + enteredTextWidth < rightEdge then
      if idx ≤ text.length then
        entered_text_loop charW rightEdge idx rest
          (text.take idx ++ t ++ text.drop idx) (newIdx + t.length)
          (newCursorX + enteredTextWidth)
      else none
    else some (text, newIdx, newCursorX)

/-- The "Check for control keys" loop of `text_box::draw`.  The guards use the
frame-start cursor index `idx` throughout (as the source does);
`char_at` out of bounds panics (`none`).  `maybeCallback` is the
`Return`-key handler, modelled by the text mutation it performs. -/
def control_keys_loop (charW : Char → ℚ)
    (maybeCallback : Option (List Char → List Char)) (textPosX : ℚ) (idx : Nat) :
    List Key → List Char → Nat → ℚ → Option (List Char × Nat × ℚ)
  | [], text, newIdx, newCursorX => some (text, newIdx, newCursorX)
  | key :: rest, text, newIdx, newCursorX =>
    match key with
    | .backspace =>
      if 0 < text.length ∧ idx ≤ text.length ∧ 0 < idx then
        let remIdx := idx - 1
        match text.get? remIdx with
        | none => none
        | some ch =>
          control_keys_loop charW maybeCallback textPosX idx rest
            (text.take remIdx ++ text.drop idx) remIdx (newCursorX - charW ch)
      else control_keys_loop charW maybeCallback textPosX idx rest text newIdx newCursorX
    | .leftKey =>
      if 0 < idx then
        match text.get? (idx - 1) with
        | none => none
        | some ch =>
          control_keys_loop charW maybeCallback textPosX idx rest
            text (newIdx - 1) (newCursorX - charW ch)
      else control_keys_loop charW maybeCallback textPosX idx rest text newIdx newCursorX
    | .rightKey =>
      if idx < text.length then
        match text.get? idx with
        | none => none
        | some ch =>
          control_keys_loop charW maybeCallback textPosX idx rest
            text (newIdx + 1) (newCursorX + charW ch)
      else control_keys_loop charW maybeCallback textPosX idx rest text newIdx newCursorX
    | .returnKey =>
      if 0 < text.length then
        match maybeCallback with
        | some callback =>
          let text2 := callback text
          control_keys_loop charW maybeCallback textPosX idx rest
            text2 (min newIdx text2.length)
            (text2.foldl (fun acc ch => acc + charW ch) textPosX)
        | none => control_keys_loop charW maybeCallback textPosX idx rest text newIdx newCursorX
      else control_keys_loop charW maybeCallback textPosX idx rest text newIdx newCursorX
    | .other => control_keys_loop charW maybeCallback textPosX idx rest text newIdx newCursorX

/-- The whole `Capturing::Captured(idx, cursor_x)` arm of `text_box::draw`:
entered-text splicing followed by control-key handling; the new state keeps
the draw component and captures the final `(new_idx, new_cursor_x)`. -/
def captured_step (charW : Char → ℚ)
    (maybeCallback : Option (List Char → List Char)) (padPos padDim : ℚ × ℚ)
    (textPosX : ℚ) (idx : Nat) (cursorX : ℚ) (entered : List (List Char))
    (keys : List Key) (text : List Char) : Option (List Char × Nat × ℚ) :=
  match entered_text_loop charW (padPos.1 + padDim.1 - TEXT_PADDING) idx
      entered text idx cursorX with
  | none => none
  | some (text1, idx1, cursorX1) =>
    control_keys_loop charW maybeCallback textPosX idx keys text1 idx1 cursorX1

/-- The longest prefix of the committed fragments that the interior width
budget accepts (the fragments the entered-text loop reaches before its
`break`). -/
def accepted_fragments (charW : Char → ℚ) (rightEdge : ℚ) :
    List (List Char) → ℚ → List (List Char)
  | [], _ => []
  | t :: rest, newCursorX =>
    let w := (t.map charW).sum
    if newCursorX + w < rightEdge then t :: accepted_fragments charW rightEdge rest (newCursorX + w)
    else []

/-- Modelled from the spec (claim wording, for refinement comparison): each
committed fragment is spliced at the current cursor index and the cursor
index advances by the fragment's inserted length. -/
def claim_entered_text : List (List Char) → List Char → Nat → List Char × Nat
  | [], text, idx => (text, idx)
  | t :: rest, text, idx =>
    claim_entered_text rest (text.take idx ++ t ++ text.drop idx) (idx + t.length)

end TextBox

/-! Theorems -/

/-- Claim C9: in the envelope editor, a right-button capture
(`Clicked(elem, Right)`) with the cursor off the widget and the right button
still down steps to `Normal`, while a left-button capture in the same
situation continues as `Clicked` with the stored pixel position refreshed to
the live cursor. -/
theorem claim9_right_capture_drops_when_offwidget :
    (∀ (elem : EnvelopeEditor.Element) (cursor : ℚ × ℚ),
      EnvelopeEditor.get_new_state none (.clicked elem .right) ⟨cursor, .up, .down⟩
        = .normal) ∧
    (∀ (idx : Nat) (stored cursor : ℚ × ℚ),
      EnvelopeEditor.get_new_state none (.clicked (.envPoint idx stored) .left)
          ⟨cursor, .down, .up⟩
        = .clicked (.envPoint idx cursor) .left) := by
  constructor
  · intro elem cursor
    cases elem <;> rfl
  · intro idx stored cursor
    rfl

/-- Claim C10: the text box's `Capturing` state component is preserved
unchanged by `get_new_state` on every frame where the left button is down. -/
theorem claim10_capturing_preserved_on_down :
    ∀ (overElem : TextBox.Element) (prev : TextBox.State) (cursor : ℚ × ℚ)
      (r : ButtonState),
      (TextBox.get_new_state overElem prev ⟨cursor, .down, r⟩).capturing
        = prev.capturing := by
  intro overElem prev cursor r
  obtain ⟨d, cap⟩ := prev
  rcases d with _ | pElem | pElem <;> cases cap <;> cases overElem <;>
    try rfl
  all_goals cases pElem <;> rfl

/-- Claim C8 counterexample: text box hover is not idempotent from every
previous state.  From `State(Clicked(Nill), Uncaptured)` with the cursor over
the `Rect` element and both buttons up, the state stays
`State(Clicked(Nill), Uncaptured)` instead of becoming
`Highlighted(Rect)`. -/
theorem claim8_counterexample_textbox_hover_stuck :
    TextBox.get_new_state .rect ⟨.clicked .nill, .uncaptured⟩ ⟨(0, 0), .up, .up⟩
        = ⟨.clicked .nill, .uncaptured⟩ ∧
    TextBox.get_new_state .rect ⟨.clicked .nill, .uncaptured⟩ ⟨(0, 0), .up, .up⟩
        ≠ ⟨.highlighted .rect, .uncaptured⟩ :=
  ⟨rfl, by decide⟩

/-- Claim C8, amended: hover (same hit element, both buttons up) yields the
`Highlighted(Element)` state from any previous state, identically on every
subsequent frame, for the envelope editor and the XY pad; for the text box
this holds whenever the previous draw state is `Normal` or `Highlighted`
(with the `Capturing` component preserved), but not from every `Clicked`
previous state (see the counterexample). -/
theorem claim8_amended_hover_idempotent :
    (∀ (elem : EnvelopeEditor.Element) (prev : EnvelopeEditor.State) (p : ℚ × ℚ),
      EnvelopeEditor.get_new_state (some elem) prev ⟨p, .up, .up⟩
        = .highlighted elem) ∧
    (∀ (prev : XYPad.State) (p : ℚ × ℚ) (r : ButtonState),
      XYPad.get_new_state true prev ⟨p, .up, r⟩ = .highlighted) ∧
    (∀ (overElem : TextBox.Element) (cap : TextBox.Capturing) (p : ℚ × ℚ),
      overElem ≠ .nill →
      TextBox.get_new_state overElem ⟨.normal, cap⟩ ⟨p, .up, .up⟩
          = ⟨.highlighted overElem, cap⟩ ∧
      ∀ prevElem : TextBox.Element,
        TextBox.get_new_state overElem ⟨.highlighted prevElem, cap⟩ ⟨p, .up, .up⟩
          = ⟨.highlighted overElem, cap⟩) := by
  refine ⟨?_, ?_, ?_⟩
  · intro elem prev p
    cases prev <;> rfl
  · intro prev p r
    cases prev <;> rfl
  · intro overElem cap p h
    cases cap <;> cases overElem <;>
      first
      | exact absurd rfl h
      | exact ⟨rfl, fun prevElem => by cases prevElem <;> rfl⟩

/-- Claim C8 witness: the amended hover idempotence at concrete inputs. -/
theorem claim8_amended_witness :
    EnvelopeEditor.get_new_state (some .pad) .normal ⟨(0, 0), .up, .up⟩
        = .highlighted .pad ∧
    XYPad.get_new_state true .normal ⟨(0, 0), .up, .up⟩ = .highlighted ∧
    TextBox.get_new_state .rect ⟨.normal, .uncaptured⟩ ⟨(0, 0), .up, .up⟩
        = ⟨.highlighted .rect, .uncaptured⟩ :=
  ⟨claim8_amended_hover_idempotent.1 .pad .normal (0, 0),
   claim8_amended_hover_idempotent.2.1 .normal (0, 0) .up,
   (claim8_amended_hover_idempotent.2.2 .rect .uncaptured (0, 0) (by decide)).1⟩

/-- The XY pad's callback condition, characterised propositionally. -/
theorem callback_fires_iff (x y newX newY : ℚ) (state newState : XYPad.State) :
    XYPad.callback_fires x y newX newY state newState = true ↔
      ((newX, newY) ≠ (x, y) ∨
       (state = .highlighted ∧ newState = .clicked) ∨
       (state = .clicked ∧ newState = .highlighted)) := by
  unfold XYPad.callback_fires
  by_cases h : x ≠ newX ∨ y ≠ newY
  · simp only [if_pos h, true_iff]
    left
    intro hc
    rw [Prod.ext_iff] at hc
    rcases h with h | h
    · exact h hc.1.symm
    · exact h hc.2.symm
  · simp only [if_neg h]
    push_neg at h
    obtain ⟨hx, hy⟩ := h
    subst hx; subst hy
    cases state <;> cases newState <;> simp

/-- Claim C7: for the XY pad, the handler is invoked on a frame (exactly
once) iff the computed value differs from the previous value, or the
`(previous, next)` state pair is `Highlighted→Clicked` or
`Clicked→Highlighted`. -/
theorem claim7_xy_callback_iff_changed_or_boundary :
    ∀ (minX maxX minY maxY : ℚ) (pos dim : ℚ × ℚ) (frameW x y : ℚ)
      (state : XYPad.State) (mouse : Mouse),
      (XYPad.frame minX maxX minY maxY pos dim frameW x y state mouse).fired = true ↔
        ((XYPad.frame minX maxX minY maxY pos dim frameW x y state mouse).value ≠ (x, y) ∨
         (state = .highlighted ∧
          (XYPad.frame minX maxX minY maxY pos dim frameW x y state mouse).state = .clicked) ∨
         (state = .clicked ∧
          (XYPad.frame minX maxX minY maxY pos dim frameW x y state mouse).state = .highlighted)) := by
  intro minX maxX minY maxY pos dim frameW x y state mouse
  simp only [XYPad.frame]
  exact callback_fires_iff x y _ _ state _

/-- The mouse snapshots of Scenario B: a left drag from pixel `(10,10)` to
`(50,50)` inside the `100×100` pad (frame width `0`). -/
def scenarioBMice : List Mouse :=
  [⟨(10, 10), .down, .up⟩, ⟨(20, 20), .down, .up⟩, ⟨(30, 30), .down, .up⟩,
   ⟨(40, 40), .down, .up⟩, ⟨(50, 50), .down, .up⟩]

/-- Scenario B run: pad at `(0,0)`, outer size `100×100`, frame width `0`,
axes mapped to `[0,10]×[0,10]`, starting hovered with value `(9,9)` (the
value the pad itself computes for pixel `(10,10)`). -/
def scenarioBRun : XYPad.State × (ℚ × ℚ) × List (ℚ × ℚ) :=
  XYPad.run 0 10 0 10 (0, 0) (100, 100) 0 .highlighted (9, 9) scenarioBMice

/-- Evaluation of the Scenario B run: the five frames invoke the handler
with `(9,9), (8,8), (7,7), (6,6), (5,5)` and end in `Clicked` at `(5,5)`. -/
theorem scenarioBRun_eq :
    scenarioBRun =
      (XYPad.State.clicked, ((5 : ℚ), (5 : ℚ)),
       [((9 : ℚ), (9 : ℚ)), (8, 8), (7, 7), (6, 6), (5, 5)]) := by
  norm_num [scenarioBRun, scenarioBMice, XYPad.run, XYPad.frame,
    XYPad.get_new_state, XYPad.new_value, XYPad.callback_fires, is_over,
    clamp, map_range]

/-- Claim C2 counterexample: in Scenario B (drag from pixel `(10,10)` to
`(50,50)` in a `100×100` pad mapped to `[0,10]×[0,10]`) the X values the
handler is invoked with are `[9, 8, 7, 6, 5]`, which is not strictly
increasing: the pad's `map_range(pixel, pad_dim, 0.0, min, max)` maps the
low pixel edge of each axis to the range maximum, so the X axis is inverted
as well. -/
theorem claim2_counterexample_x_not_increasing :
    scenarioBRun.2.2.map Prod.fst = [9, 8, 7, 6, 5] ∧
    ¬ List.Chain' (· < ·) (scenarioBRun.2.2.map Prod.fst) := by
  rw [scenarioBRun_eq]
  refine ⟨rfl, ?_⟩
  simp only [List.map_cons, List.map_nil, List.chain'_cons]
  norm_num

/-- Claim C2, amended: in Scenario B the handler is invoked with strictly
*decreasing* X and Y value sequences (the pad inverts both axes, mapping the
left/top pixel edge to the range maximum), and the final value is exactly
`(5, 5)`. -/
theorem claim2_amended_drag_decreasing_final_5_5 :
    scenarioBRun =
      (XYPad.State.clicked, ((5 : ℚ), (5 : ℚ)),
       [((9 : ℚ), (9 : ℚ)), (8, 8), (7, 7), (6, 6), (5, 5)]) ∧
    List.Chain' (· > ·) (scenarioBRun.2.2.map Prod.fst) ∧
    List.Chain' (· > ·) (scenarioBRun.2.2.map Prod.snd) := by
  refine ⟨scenarioBRun_eq, ?_, ?_⟩ <;>
  · rw [scenarioBRun_eq]
    simp only [List.map_cons, List.map_nil, List.chain'_cons]
    norm_num

/-- A concrete envelope editor configuration: `skew = 1` (so `powf` is the
identity on its base, embedded by a `pw` that returns the base), value
ranges `[0,1]×[0,1]`, widget at `(0,0)` of outer size `100×100`, frame width
`0`, default point radius `6`, callback registered. -/
def cfg1 : EnvelopeEditor.Cfg :=
  { pw := fun b _ => b, skew := 1, minX := 0, maxX := 1, minY := 0, maxY := 1,
    pos := (0, 0), dim := (100, 100), frameW := 0, ptRadius := 6,
    hasCallback := true }

/-- A five-point collection, sorted by x, spanning the `[0,1]` x-range. -/
def env5 : List EnvelopeEditor.EnvelopePoint :=
  [⟨0, 0, 1⟩, ⟨1/4, 0, 1⟩, ⟨1/2, 0, 1⟩, ⟨3/4, 0, 1⟩, ⟨1, 0, 1⟩]

/-- Claim C1 (the claim is right, the code is wrong): retained indices are
*not* revalidated.  Envelope editor: persisted `Clicked(EnvPoint(0), Left)`
with the externally-owned collection shrunk to empty dereferences
`env[0]` while drawing the clicked point — an out-of-bounds panic (`none`).
Text box: persisted `Captured(5, _)` with the text shrunk to `"ab"` and a
`Left` key pressed evaluates `char_at(4)` on a 2-character string — an
out-of-bounds panic (`none`). -/
theorem claim1_stale_index_panics :
    EnvelopeEditor.frame cfg1 [] (.clicked (.envPoint 0 (50, 50)) .left)
        ⟨(50, 50), .down, .up⟩ = none ∧
    TextBox.captured_step (fun _ => 1) none (0, 0) (100, 100) 5 5 40 []
        [.leftKey] ['a', 'b'] = none := by
  constructor
  · norm_num [EnvelopeEditor.frame, EnvelopeEditor.percEnv,
      EnvelopeEditor.is_over_and_closest, EnvelopeEditor.scanPoints,
      EnvelopeEditor.get_new_state, EnvelopeEditor.is_clicked_env_point,
      EnvelopeEditor.dispatch, EnvelopeEditor.padPos, EnvelopeEditor.padDim,
      is_over, cfg1]
  · norm_num [TextBox.captured_step, TextBox.entered_text_loop,
      TextBox.control_keys_loop, TextBox.TEXT_PADDING]

/-- Claim C3 counterexample: a right-button capture on `IndexedPoint(2)` of
the five-point collection that transitions to `Normal` (cursor released off
the widget) removes nothing and invokes no handler: the collection still has
its 5 points and the call list is empty, contradicting "on every transition
from `Clicked(elem, Right)` to either `Highlighted` or `Normal` … the point
at that index is removed … and the handler is then invoked". -/
theorem claim3_counterexample_release_to_normal_removes_nothing :
    EnvelopeEditor.frame cfg1 env5 (.clicked (.envPoint 2 (50, 50)) .right)
        ⟨(200, 200), .up, .up⟩
      = some (.normal, env5, []) ∧ env5.length = 5 := by
  constructor
  · norm_num [EnvelopeEditor.frame, EnvelopeEditor.is_over_and_closest,
      EnvelopeEditor.get_new_state, EnvelopeEditor.is_clicked_env_point,
      EnvelopeEditor.dispatch, EnvelopeEditor.padPos, EnvelopeEditor.padDim,
      is_over, cfg1, env5]
  · norm_num [env5]

/-- Claim C3, amended: the removal fires exactly on the transitions
`Clicked(_, Right) → Highlighted(EnvPoint(j, _))`, and it removes index `j`
— the indexed point of the *new* state: the point at `j` is removed (the
length decreases by one) and the handler is invoked with the shrunken
collection and `j`.  A `Clicked(Right) → Normal` transition removes nothing
(see the counterexample). -/
theorem claim3_amended_right_release_removes_new_index :
    ∀ (c : EnvelopeEditor.Cfg) (pe : List (ℚ × ℚ × ℚ))
      (env : List EnvelopeEditor.EnvelopePoint) (elem : EnvelopeEditor.Element)
      (j : Nat) (p : ℚ × ℚ) (mouse : Mouse)
      (closest : Option EnvelopeEditor.Element),
      j < env.length → c.hasCallback = true →
      EnvelopeEditor.dispatch c pe env (.clicked elem .right)
          (.highlighted (.envPoint j p)) mouse closest
        = some (env.eraseIdx j, [(env.eraseIdx j, j)]) ∧
      (env.eraseIdx j).length + 1 = env.length := by
  intro c pe env elem j p mouse closest hj hcb
  constructor
  · simp only [EnvelopeEditor.dispatch, EnvelopeEditor.is_clicked_env_point,
      if_pos hj, hcb, if_true]
  · rw [List.length_eraseIdx, if_pos hj]
    omega

/-- Claim C3 witness (Scenario D): right-click release on `IndexedPoint(2)`
of the five-point collection leaves 4 points and invokes the handler with
index 2 and the 4-element collection. -/
theorem claim3_amended_witness_scenarioD :
    (2 < env5.length ∧ cfg1.hasCallback = true) ∧
    (EnvelopeEditor.dispatch cfg1 [] env5 (.clicked (.envPoint 2 (50, 50)) .right)
        (.highlighted (.envPoint 2 (48, 52))) ⟨(48, 52), .up, .up⟩ none
      = some (env5.eraseIdx 2, [(env5.eraseIdx 2, 2)]) ∧
     (env5.eraseIdx 2).length + 1 = env5.length) ∧
    (env5.eraseIdx 2).length = 4 :=
  ⟨⟨by norm_num [env5], rfl⟩,
   claim3_amended_right_release_removes_new_index cfg1 [] env5
     (.envPoint 2 (50, 50)) 2 (48, 52) ⟨(48, 52), .up, .up⟩ none
     (by norm_num [env5]) rfl,
   by norm_num [env5]⟩

instance : IsTotal EnvelopeEditor.EnvelopePoint (fun a b => a.x ≤ b.x) :=
  ⟨fun a b => le_total a.x b.x⟩

instance : IsTrans EnvelopeEditor.EnvelopePoint (fun a b => a.x ≤ b.x) :=
  ⟨fun _ _ _ hab hbc => le_trans hab hbc⟩

/-- The insert branch's sort leaves every adjacent pair ordered by x. -/
theorem sortEnv_chain' (l : List EnvelopeEditor.EnvelopePoint) :
    (EnvelopeEditor.sortEnv l).Chain' (fun a b => a.x ≤ b.x) :=
  (List.sorted_insertionSort (fun a b => a.x ≤ b.x) l).chain'

/-- Claim C4: if the point collection is sorted by x ascending before the
frame, then after the click-to-insert dispatch — the transition
`Clicked(Pad, Left) → Highlighted(Pad)`, i.e. release of a left click on
empty pad space, with zero points or with existing points — the collection
is again sorted: every adjacent pair `(i, i+1)` satisfies `X(i) ≤ X(i+1)`. -/
theorem claim4_click_insert_keeps_sorted :
    ∀ (c : EnvelopeEditor.Cfg) (pe : List (ℚ × ℚ × ℚ))
      (env : List EnvelopeEditor.EnvelopePoint) (mouse : Mouse)
      (closest : Option EnvelopeEditor.Element)
      (env2 : List EnvelopeEditor.EnvelopePoint)
      (calls : List (List EnvelopeEditor.EnvelopePoint × Nat)),
      env.Chain' (fun a b => a.x ≤ b.x) →
      EnvelopeEditor.dispatch c pe env (.clicked .pad .left)
          (.highlighted .pad) mouse closest = some (env2, calls) →
      env2.Chain' (fun a b => a.x ≤ b.x) := by
  intro c pe env mouse closest env2 calls hsort hdisp
  have hins :
      (if env.length = 0 then
        (some (env ++ [EnvelopeEditor.EnvelopePoint.new
            (EnvelopeEditor.get_new_value c pe 0 mouse.pos.1 mouse.pos.2).1
            (EnvelopeEditor.get_new_value c pe 0 mouse.pos.1 mouse.pos.2).2], [])
          : Option (List EnvelopeEditor.EnvelopePoint
              × List (List EnvelopeEditor.EnvelopePoint × Nat)))
      else
        some (EnvelopeEditor.sortEnv (env ++ [EnvelopeEditor.EnvelopePoint.new
            (EnvelopeEditor.insert_value c mouse).1
            (EnvelopeEditor.insert_value c mouse).2]), []))
        = some (env2, calls) → env2.Chain' (fun a b => a.x ≤ b.x) := by
    intro h
    by_cases h0 : env.length = 0
    · rw [if_pos h0] at h
      cases Option.some.inj h
      have : env = [] := List.length_eq_zero.mp h0
      subst this
      simp
    · rw [if_neg h0] at h
      cases Option.some.inj h
      exact sortEnv_chain' _
  rcases closest with _ | ce
  · simp only [EnvelopeEditor.dispatch, EnvelopeEditor.is_clicked_env_point] at hdisp
    exact hins hdisp
  · cases ce with
    | rect =>
      simp only [EnvelopeEditor.dispatch, EnvelopeEditor.is_clicked_env_point] at hdisp
      exact hins hdisp
    | pad =>
      simp only [EnvelopeEditor.dispatch, EnvelopeEditor.is_clicked_env_point] at hdisp
      exact hins hdisp
    | envPoint cidx cpos =>
      by_cases hc : cidx < env.length
      · simp only [EnvelopeEditor.dispatch, EnvelopeEditor.is_clicked_env_point,
          if_pos hc] at hdisp
        exact hins hdisp
      · simp only [EnvelopeEditor.dispatch, EnvelopeEditor.is_clicked_env_point,
          if_neg hc] at hdisp
        cases hdisp
    | curvePoint cidx cpos =>
      simp only [EnvelopeEditor.dispatch, EnvelopeEditor.is_clicked_env_point] at hdisp
      exact hins hdisp

/-- Claim C4 witness: inserting into a sorted two-point collection by a
left-click release at pixel `(50, 50)` of the `100×100` pad yields the
sorted three-point collection `x = 0, 1/2, 1`. -/
theorem claim4_witness :
    List.Chain' (fun a b : EnvelopeEditor.EnvelopePoint => a.x ≤ b.x)
      [⟨0, 0, 1⟩, ⟨1, 1, 1⟩] ∧
    EnvelopeEditor.dispatch cfg1 [] [⟨0, 0, 1⟩, ⟨1, 1, 1⟩] (.clicked .pad .left)
        (.highlighted .pad) ⟨(50, 50), .up, .up⟩ (some .pad)
      = some ([⟨0, 0, 1⟩, ⟨1/2, 1/2, 1⟩, ⟨1, 1, 1⟩], []) ∧
    List.Chain' (fun a b : EnvelopeEditor.EnvelopePoint => a.x ≤ b.x)
      [⟨0, 0, 1⟩, ⟨1/2, 1/2, 1⟩, ⟨1, 1, 1⟩] := by
  have hs : List.Chain' (fun a b : EnvelopeEditor.EnvelopePoint => a.x ≤ b.x)
      [⟨0, 0, 1⟩, ⟨1, 1, 1⟩] := by
    simp only [List.chain'_cons, List.chain'_singleton, and_true]
    norm_num
  have hd : EnvelopeEditor.dispatch cfg1 [] [⟨0, 0, 1⟩, ⟨1, 1, 1⟩]
      (.clicked .pad .left) (.highlighted .pad) ⟨(50, 50), .up, .up⟩ (some .pad)
      = some ([⟨0, 0, 1⟩, ⟨1/2, 1/2, 1⟩, ⟨1, 1, 1⟩], []) := by
    norm_num [EnvelopeEditor.dispatch, EnvelopeEditor.is_clicked_env_point,
      EnvelopeEditor.insert_value, EnvelopeEditor.sortEnv,
      EnvelopeEditor.padPos, EnvelopeEditor.padDim, EnvelopeEditor.EnvelopePoint.new,
      List.insertionSort, List.orderedInsert, percentage, map_range, clamp, cfg1]
  exact ⟨hs, hd,
    claim4_click_insert_keeps_sorted cfg1 [] [⟨0, 0, 1⟩, ⟨1, 1, 1⟩]
      ⟨(50, 50), .up, .up⟩ (some .pad) _ [] hs hd⟩

/-- Unit-width font metrics for concrete text box runs. -/
def charW1 : Char → ℚ := fun _ => 1

/-- Claim C6 counterexample: with cursor index 1 in `"xy"` and the two
fragments `"ab"`, `"cd"` committed in one frame (ample width budget), the
code produces `"xcdaby"` — the second fragment is spliced at the stale
frame-start index 1, not at the advanced cursor — while the claim's
splice-at-the-cursor semantics produces `"xabcdy"`. -/
theorem claim6_counterexample_stale_splice_index :
    TextBox.entered_text_loop charW1 1000 1 [['a', 'b'], ['c', 'd']] ['x', 'y'] 1 0
        = some (['x', 'c', 'd', 'a', 'b', 'y'], 5, 4) ∧
    TextBox.claim_entered_text [['a', 'b'], ['c', 'd']] ['x', 'y'] 1
        = (['x', 'a', 'b', 'c', 'd', 'y'], 5) ∧
    (['x', 'c', 'd', 'a', 'b', 'y'] : List Char) ≠ ['x', 'a', 'b', 'c', 'd', 'y'] := by
  refine ⟨?_, rfl, by decide⟩
  norm_num [TextBox.entered_text_loop, charW1]

/-- Claim C6, amended: every fragment the width budget accepts is spliced at
the *frame-start* cursor index (so the fragments of one frame end up in
reverse order immediately after that index), the cursor index advances by
the total accepted length, and a fragment that would overflow the interior
width budget is rejected together with all following fragments, leaving the
text unchanged by them. -/
theorem claim6_amended_fragments_spliced_at_frame_start_index :
    ∀ (charW : Char → ℚ) (rightEdge : ℚ) (idx : Nat) (frags : List (List Char))
      (text : List Char) (newIdx : Nat) (newCursorX : ℚ),
      idx ≤ text.length →
      TextBox.entered_text_loop charW rightEdge idx frags text newIdx newCursorX
        = some
            (text.take idx
               ++ (TextBox.accepted_fragments charW rightEdge frags newCursorX).reverse.flatten
               ++ text.drop idx,
             newIdx
               + ((TextBox.accepted_fragments charW rightEdge frags newCursorX).map
                   List.length).sum,
             newCursorX
               + ((TextBox.accepted_fragments charW rightEdge frags newCursorX).map
                   (fun t => (t.map charW).sum)).sum) := by
  intro charW rightEdge idx frags
  induction frags with
  | nil =>
    intro text newIdx newCursorX h
    simp [TextBox.entered_text_loop, TextBox.accepted_fragments]
  | cons t rest ih =>
    intro text newIdx newCursorX h
    by_cases hfit : newCursorX + (t.map charW).sum < rightEdge
    · have hlen : (text.take idx).length = idx := by
        rw [List.length_take]
        exact min_eq_left h
      have h' : idx ≤ (text.take idx ++ t ++ text.drop idx).length := by
        simp only [List.length_append]
        omega
      have htake : (text.take idx ++ t ++ text.drop idx).take idx = text.take idx := by
        rw [List.append_assoc]
        exact List.take_left' hlen
      have hdrop : (text.take idx ++ t ++ text.drop idx).drop idx = t ++ text.drop idx := by
        rw [List.append_assoc]
        exact List.drop_left' hlen
      simp only [TextBox.entered_text_loop, TextBox.accepted_fragments]
      rw [if_pos hfit, if_pos h, ih _ _ _ h', htake, hdrop, if_pos hfit]
      simp only [List.reverse_cons, List.flatten_append, List.flatten_cons,
        List.flatten_nil, List.append_nil, List.map_cons, List.sum_cons,
        Option.some.injEq, Prod.mk.injEq, List.append_assoc, true_and]
      exact ⟨by omega, by ring⟩
    · simp only [TextBox.entered_text_loop, TextBox.accepted_fragments,
        if_neg hfit]
      simp [List.take_append_drop]

/-- Claim C6 witness: the amended characterisation applied at cursor index 1
of `"xy"` with fragments `"ab"`, `"cd"`. -/
theorem claim6_amended_witness :
    1 ≤ (['x', 'y'] : List Char).length ∧
    TextBox.entered_text_loop charW1 1000 1 [['a', 'b'], ['c', 'd']] ['x', 'y'] 1 0
      = some
          ((['x', 'y'] : List Char).take 1
             ++ (TextBox.accepted_fragments charW1 1000 [['a', 'b'], ['c', 'd']] 0).reverse.flatten
             ++ (['x', 'y'] : List Char).drop 1,
           1 + ((TextBox.accepted_fragments charW1 1000 [['a', 'b'], ['c', 'd']] 0).map
               List.length).sum,
           0 + ((TextBox.accepted_fragments charW1 1000 [['a', 'b'], ['c', 'd']] 0).map
               (fun t => (t.map charW1).sum)).sum) :=
  ⟨by decide,
   claim6_amended_fragments_spliced_at_frame_start_index charW1 1000 1
     [['a', 'b'], ['c', 'd']] ['x', 'y'] 1 0 (by decide)⟩

/-- The function `clamp` lands in `[lo, hi]` whenever `lo ≤ hi`. -/
theorem clamp_mem (v lo hi : ℚ) (h : lo ≤ hi) :
    lo ≤ clamp v lo hi ∧ clamp v lo hi ≤ hi := by
  unfold clamp
  split_ifs with h1 h2
  · exact ⟨le_refl lo, h⟩
  · exact ⟨h, le_refl hi⟩
  · exact ⟨not_lt.mp h1, not_lt.mp h2⟩

/-- A `percentage` of a value at or above the low end is nonnegative. -/
theorem percentage_nonneg (x lo hi : ℚ) (hlt : lo < hi) (hx : lo ≤ x) :
    0 ≤ percentage x lo hi :=
  div_nonneg (sub_nonneg.mpr hx) (le_of_lt (sub_pos.mpr hlt))

/-- A `percentage` of a value at or below the high end is at most one. -/
theorem percentage_le_one (x lo hi : ℚ) (hlt : lo < hi) (hx : x ≤ hi) :
    percentage x lo hi ≤ 1 :=
  (div_le_one (sub_pos.mpr hlt)).mpr (by linarith)

/-- The function `percentage` is monotone in its value argument for an increasing range. -/
theorem percentage_mono (x y lo hi : ℚ) (hlt : lo < hi) (hxy : x ≤ y) :
    percentage x lo hi ≤ percentage y lo hi := by
  unfold percentage
  have h' : (0 : ℚ) < hi - lo := sub_pos.mpr hlt
  rw [div_le_div_iff₀ h' h']
  nlinarith

/-- The function `map_range` out of `[0, 1]` is monotone for an increasing target range. -/
theorem map_range01_mono (p q lo hi : ℚ) (h : lo ≤ hi) (hpq : p ≤ q) :
    map_range p 0 1 lo hi ≤ map_range q 0 1 lo hi := by
  unfold map_range
  simp only [sub_zero, div_one]
  exact add_le_add_left (mul_le_mul_of_nonneg_right hpq (sub_nonneg.mpr h)) lo

/-- The value `map_range 0` hits the low end of the target range. -/
theorem map_range01_zero (lo hi : ℚ) : map_range 0 0 1 lo hi = lo := by
  unfold map_range
  ring

/-- The value `map_range 1` hits the high end of the target range. -/
theorem map_range01_one (lo hi : ℚ) : map_range 1 0 1 lo hi = hi := by
  unfold map_range
  ring

/-- Mapping a percentage back through `map_range` recovers the value. -/
theorem map_range_percentage (x lo hi : ℚ) (h : lo < hi) :
    map_range (percentage x lo hi) 0 1 lo hi = x := by
  unfold map_range percentage
  have h' : hi - lo ≠ 0 := sub_ne_zero.mpr (ne_of_gt h)
  field_simp

/-- The y axis's flipped `percentage(v, pad_dim, 0)` lies in `[0, 1]` when
`v` lies in `[0, pad_dim]`. -/
theorem percentage_flip_mem (v pd : ℚ) (hpd : 0 ≤ pd) (h0 : 0 ≤ v) (h1 : v ≤ pd) :
    0 ≤ percentage v pd 0 ∧ percentage v pd 0 ≤ 1 := by
  rcases eq_or_lt_of_le hpd with h | h
  · have hv : v = 0 := le_antisymm (h ▸ h1) h0
    subst hv
    rw [← h]
    norm_num [percentage]
  · have he : percentage v pd 0 = (pd - v) / pd := by
      unfold percentage
      rw [zero_sub, div_neg, ← neg_div, neg_sub]
    constructor
    · rw [he]
      exact div_nonneg (by linarith) (le_of_lt h)
    · rw [he]
      exact (div_le_one h).mpr (by linarith)

/-- Claim C5: for every drag of `IndexedPoint(idx)` — `get_new_value` over
the percentage view of a collection sorted by x inside `[minX, maxX]` — the
new x never lies outside the interval bounded by the neighbouring points'
x values: at least `X(idx−1)` (the range minimum when `idx = 0`) and at most
`X(idx+1)` (the range maximum when `idx` is last); and both coordinates are
clamped to the pad rectangle: the cursor pixel is clamped to the pad before
mapping, so the written value stays inside `[minX, maxX] × [minY, maxY]`. -/
theorem claim5_neighbor_clamp
    (c : EnvelopeEditor.Cfg) (env : List EnvelopeEditor.EnvelopePoint)
    (idx : Nat) (mouseX mouseY : ℚ)
    (hx : c.minX < c.maxX) (hy : c.minY ≤ c.maxY)
    (hpd : 0 ≤ (EnvelopeEditor.padDim c).2)
    (hpw : ∀ t : ℚ, 0 ≤ t → t ≤ 1 → 0 ≤ c.pw t c.skew ∧ c.pw t c.skew ≤ 1)
    (hsort : env.Chain' (fun a b => a.x ≤ b.x))
    (hmem : ∀ p ∈ env, c.minX ≤ p.x ∧ p.x ≤ c.maxX)
    (hidx : idx < env.length) :
    (c.minX ≤ (EnvelopeEditor.get_new_value c (EnvelopeEditor.percEnv c env) idx mouseX mouseY).1 ∧
     (EnvelopeEditor.get_new_value c (EnvelopeEditor.percEnv c env) idx mouseX mouseY).1 ≤ c.maxX) ∧
    (0 < idx →
      (env.getD (idx - 1) ⟨0, 0, 0⟩).x
        ≤ (EnvelopeEditor.get_new_value c (EnvelopeEditor.percEnv c env) idx mouseX mouseY).1) ∧
    (idx + 1 < env.length →
      (EnvelopeEditor.get_new_value c (EnvelopeEditor.percEnv c env) idx mouseX mouseY).1
        ≤ (env.getD (idx + 1) ⟨0, 0, 0⟩).x) ∧
    (c.minY ≤ (EnvelopeEditor.get_new_value c (EnvelopeEditor.percEnv c env) idx mouseX mouseY).2 ∧
     (EnvelopeEditor.get_new_value c (EnvelopeEditor.percEnv c env) idx mouseX mouseY).2 ≤ c.maxY) := by
  have hpelen : (EnvelopeEditor.percEnv c env).length = env.length := by
    simp [EnvelopeEditor.percEnv]
  have hc1 : 0 < (EnvelopeEditor.percEnv c env).length := by omega
  -- entries of the percentage view
  have hget : ∀ i, i < env.length →
      ((EnvelopeEditor.percEnv c env).getD i (0, 0, 0)).1
        = percentage ((env.getD i ⟨0, 0, 0⟩).x) c.minX c.maxX := by
    intro i hi
    rw [List.getD_eq_getElem _ _ (by omega), List.getD_eq_getElem _ _ hi]
    simp [EnvelopeEditor.percEnv]
  have hmemD : ∀ i, i < env.length →
      c.minX ≤ (env.getD i ⟨0, 0, 0⟩).x ∧ (env.getD i ⟨0, 0, 0⟩).x ≤ c.maxX := by
    intro i hi
    rw [List.getD_eq_getElem _ _ hi]
    exact hmem _ (List.getElem_mem _)
  have hadj : ∀ i, i + 1 < env.length →
      (env.getD i ⟨0, 0, 0⟩).x ≤ (env.getD (i + 1) ⟨0, 0, 0⟩).x := by
    intro i hi
    rw [List.getD_eq_getElem _ _ (by omega), List.getD_eq_getElem _ _ hi]
    have h := List.chain'_iff_get.mp hsort i (by omega)
    simpa [List.get_eq_getElem] using h
  -- the x bounds
  have hLdef : (EnvelopeEditor.get_x_bounds (EnvelopeEditor.percEnv c env) idx).1
      = if 0 < (EnvelopeEditor.percEnv c env).length ∧ 0 < idx then
          ((EnvelopeEditor.percEnv c env).getD (idx - 1) (0, 0, 0)).1
        else 0 := rfl
  have hRdef : (EnvelopeEditor.get_x_bounds (EnvelopeEditor.percEnv c env) idx).2
      = if 0 < (EnvelopeEditor.percEnv c env).length
           ∧ idx < (EnvelopeEditor.percEnv c env).length - 1 then
          ((EnvelopeEditor.percEnv c env).getD (idx + 1) (0, 0, 0)).1
        else 1 := rfl
  have hL0 : 0 ≤ (EnvelopeEditor.get_x_bounds (EnvelopeEditor.percEnv c env) idx).1 ∧
      (EnvelopeEditor.get_x_bounds (EnvelopeEditor.percEnv c env) idx).1
        ≤ percentage ((env.getD idx ⟨0, 0, 0⟩).x) c.minX c.maxX := by
    rw [hLdef]
    by_cases h0 : 0 < idx
    · rw [if_pos ⟨hc1, h0⟩, hget _ (by omega)]
      have hstep : (env.getD (idx - 1) ⟨0, 0, 0⟩).x ≤ (env.getD idx ⟨0, 0, 0⟩).x := by
        have := hadj (idx - 1) (by omega)
        have he : idx - 1 + 1 = idx := by omega
        rwa [he] at this
      exact ⟨percentage_nonneg _ _ _ hx (hmemD _ (by omega)).1,
        percentage_mono _ _ _ _ hx hstep⟩
    · rw [if_neg (by tauto)]
      exact ⟨le_refl 0, percentage_nonneg _ _ _ hx (hmemD _ hidx).1⟩
  have hR1 : percentage ((env.getD idx ⟨0, 0, 0⟩).x) c.minX c.maxX
        ≤ (EnvelopeEditor.get_x_bounds (EnvelopeEditor.percEnv c env) idx).2 ∧
      (EnvelopeEditor.get_x_bounds (EnvelopeEditor.percEnv c env) idx).2 ≤ 1 := by
    rw [hRdef]
    by_cases hlast : idx + 1 < env.length
    · rw [if_pos ⟨hc1, by omega⟩, hget _ hlast]
      exact ⟨percentage_mono _ _ _ _ hx (hadj idx hlast),
        percentage_le_one _ _ _ hx (hmemD _ hlast).2⟩
    · rw [if_neg (by omega)]
      exact ⟨percentage_le_one _ _ _ hx (hmemD _ hidx).2, le_refl 1⟩
  have hLR : (EnvelopeEditor.get_x_bounds (EnvelopeEditor.percEnv c env) idx).1
      ≤ (EnvelopeEditor.get_x_bounds (EnvelopeEditor.percEnv c env) idx).2 :=
    le_trans hL0.2 hR1.1
  -- the clamped x percentage lies between the bounds
  have hq : ∀ p : ℚ,
      (EnvelopeEditor.get_x_bounds (EnvelopeEditor.percEnv c env) idx).1
        ≤ (if p > (EnvelopeEditor.get_x_bounds (EnvelopeEditor.percEnv c env) idx).2 then
             (EnvelopeEditor.get_x_bounds (EnvelopeEditor.percEnv c env) idx).2
           else if p < (EnvelopeEditor.get_x_bounds (EnvelopeEditor.percEnv c env) idx).1 then
             (EnvelopeEditor.get_x_bounds (EnvelopeEditor.percEnv c env) idx).1
           else p) ∧
      (if p > (EnvelopeEditor.get_x_bounds (EnvelopeEditor.percEnv c env) idx).2 then
         (EnvelopeEditor.get_x_bounds (EnvelopeEditor.percEnv c env) idx).2
       else if p < (EnvelopeEditor.get_x_bounds (EnvelopeEditor.percEnv c env) idx).1 then
         (EnvelopeEditor.get_x_bounds (EnvelopeEditor.percEnv c env) idx).1
       else p)
        ≤ (EnvelopeEditor.get_x_bounds (EnvelopeEditor.percEnv c env) idx).2 := by
    intro p
    split_ifs with h1 h2
    · exact ⟨hLR, le_refl _⟩
    · exact ⟨le_refl _, hLR⟩
    · exact ⟨not_lt.mp h2, not_lt.mp h1⟩
  -- the first component of the new value
  have hnv1 :
      (EnvelopeEditor.get_new_value c (EnvelopeEditor.percEnv c env) idx mouseX mouseY).1
        = map_range
            (if percentage (clamp (mouseX - (EnvelopeEditor.padPos c).1) 0
                  (EnvelopeEditor.padDim c).1) 0 (EnvelopeEditor.padDim c).1
                > (EnvelopeEditor.get_x_bounds (EnvelopeEditor.percEnv c env) idx).2 then
               (EnvelopeEditor.get_x_bounds (EnvelopeEditor.percEnv c env) idx).2
             else if percentage (clamp (mouseX - (EnvelopeEditor.padPos c).1) 0
                  (EnvelopeEditor.padDim c).1) 0 (EnvelopeEditor.padDim c).1
                < (EnvelopeEditor.get_x_bounds (EnvelopeEditor.percEnv c env) idx).1 then
               (EnvelopeEditor.get_x_bounds (EnvelopeEditor.percEnv c env) idx).1
             else percentage (clamp (mouseX - (EnvelopeEditor.padPos c).1) 0
                  (EnvelopeEditor.padDim c).1) 0 (EnvelopeEditor.padDim c).1)
            0 1 c.minX c.maxX := rfl
  have hnv2 :
      (EnvelopeEditor.get_new_value c (EnvelopeEditor.percEnv c env) idx mouseX mouseY).2
        = map_range
            (c.pw (percentage (clamp (mouseY - (EnvelopeEditor.padPos c).2) 0
                (EnvelopeEditor.padDim c).2) (EnvelopeEditor.padDim c).2 0) c.skew)
            0 1 c.minY c.maxY := rfl
  obtain ⟨hqL, hqR⟩ := hq (percentage (clamp (mouseX - (EnvelopeEditor.padPos c).1) 0
    (EnvelopeEditor.padDim c).1) 0 (EnvelopeEditor.padDim c).1)
  have hq0 : (0 : ℚ) ≤ _ := le_trans hL0.1 hqL
  have hq1 := le_trans hqR hR1.2
  refine ⟨⟨?_, ?_⟩, ?_, ?_, ?_⟩
  · rw [hnv1]
    calc c.minX = map_range 0 0 1 c.minX c.maxX := (map_range01_zero _ _).symm
    _ ≤ _ := map_range01_mono _ _ _ _ (le_of_lt hx) hq0
  · rw [hnv1]
    calc map_range _ 0 1 c.minX c.maxX
        ≤ map_range 1 0 1 c.minX c.maxX := map_range01_mono _ _ _ _ (le_of_lt hx) hq1
    _ = c.maxX := map_range01_one _ _
  · intro h0
    rw [hnv1]
    calc (env.getD (idx - 1) ⟨0, 0, 0⟩).x
        = map_range (percentage ((env.getD (idx - 1) ⟨0, 0, 0⟩).x) c.minX c.maxX)
            0 1 c.minX c.maxX := (map_range_percentage _ _ _ hx).symm
    _ ≤ _ := by
        apply map_range01_mono _ _ _ _ (le_of_lt hx)
        have hLval : (EnvelopeEditor.get_x_bounds (EnvelopeEditor.percEnv c env) idx).1
            = percentage ((env.getD (idx - 1) ⟨0, 0, 0⟩).x) c.minX c.maxX := by
          rw [hLdef, if_pos ⟨hc1, h0⟩, hget _ (by omega)]
        rw [← hLval]
        exact hqL
  · intro hlast
    rw [hnv1]
    calc map_range _ 0 1 c.minX c.maxX
        ≤ map_range (percentage ((env.getD (idx + 1) ⟨0, 0, 0⟩).x) c.minX c.maxX)
            0 1 c.minX c.maxX := by
          apply map_range01_mono _ _ _ _ (le_of_lt hx)
          have hRval : (EnvelopeEditor.get_x_bounds (EnvelopeEditor.percEnv c env) idx).2
              = percentage ((env.getD (idx + 1) ⟨0, 0, 0⟩).x) c.minX c.maxX := by
            rw [hRdef, if_pos ⟨hc1, by omega⟩, hget _ hlast]
          rw [← hRval]
          exact hqR
    _ = (env.getD (idx + 1) ⟨0, 0, 0⟩).x := map_range_percentage _ _ _ hx
  · have hclamp := clamp_mem (mouseY - (EnvelopeEditor.padPos c).2) 0
      (EnvelopeEditor.padDim c).2 hpd
    have hyp := percentage_flip_mem _ _ hpd hclamp.1 hclamp.2
    have hpwb := hpw _ hyp.1 hyp.2
    constructor
    · rw [hnv2]
      calc c.minY = map_range 0 0 1 c.minY c.maxY := (map_range01_zero _ _).symm
      _ ≤ _ := map_range01_mono _ _ _ _ hy hpwb.1
    · rw [hnv2]
      calc map_range _ 0 1 c.minY c.maxY
          ≤ map_range 1 0 1 c.minY c.maxY := map_range01_mono _ _ _ _ hy hpwb.2
      _ = c.maxY := map_range01_one _ _

/-- Claim C5 witness: the neighbour clamp at `IndexedPoint(2)` of the
five-point collection with the cursor at pixel `(90, 50)`. -/
theorem claim5_witness :
    (cfg1.minX < cfg1.maxX ∧ 2 < env5.length) ∧
    ((cfg1.minX ≤ (EnvelopeEditor.get_new_value cfg1 (EnvelopeEditor.percEnv cfg1 env5) 2 90 50).1 ∧
      (EnvelopeEditor.get_new_value cfg1 (EnvelopeEditor.percEnv cfg1 env5) 2 90 50).1 ≤ cfg1.maxX) ∧
     (0 < 2 →
       (env5.getD (2 - 1) ⟨0, 0, 0⟩).x
         ≤ (EnvelopeEditor.get_new_value cfg1 (EnvelopeEditor.percEnv cfg1 env5) 2 90 50).1) ∧
     (2 + 1 < env5.length →
       (EnvelopeEditor.get_new_value cfg1 (EnvelopeEditor.percEnv cfg1 env5) 2 90 50).1
         ≤ (env5.getD (2 + 1) ⟨0, 0, 0⟩).x) ∧
     (cfg1.minY ≤ (EnvelopeEditor.get_new_value cfg1 (EnvelopeEditor.percEnv cfg1 env5) 2 90 50).2 ∧
      (EnvelopeEditor.get_new_value cfg1 (EnvelopeEditor.percEnv cfg1 env5) 2 90 50).2 ≤ cfg1.maxY)) :=
  ⟨⟨by norm_num [cfg1], by norm_num [env5]⟩,
   claim5_neighbor_clamp cfg1 env5 2 90 50
     (by norm_num [cfg1])
     (by norm_num [cfg1])
     (by norm_num [EnvelopeEditor.padDim, cfg1])
     (fun t h1 h2 => ⟨h1, h2⟩)
     (by
       simp only [env5, List.chain'_cons, List.chain'_singleton, and_true]
       norm_num)
     (by
       intro p hp
       simp only [env5, List.mem_cons, List.not_mem_nil, or_false] at hp
       rcases hp with rfl | rfl | rfl | rfl | rfl <;> norm_num [cfg1])
     (by norm_num [env5])⟩

end Conrod
